import Mathlib

/-!
Verification of `recover_photos_albums.py` (recovery of trashed albums and
folders from an Apple Photos library database).

The Python source is shallowly embedded: SQLite tables become lists of row
structures, SQL queries become list transformations, the regular expressions
of the schema resolver become executable matchers over character lists, and
Python dictionaries become association lists with last-write-wins lookup.
External collaborators (`photos_datetime_local` from osxphotos, the
`photoscript` Photo constructor) appear only at the module boundary and are
modelled as a tagged value respectively as an abstract resolution function.
-/

namespace RecoverAlbums

/-! ## Regular-expression matchers of the schema resolver

The source classifies generated table and column names with the anchored
patterns `^Z_\d+ASSETS$`, `^Z_\d+ALBUMS$` and `^Z_FOK_\d+ASSETS$`
(`re.match` with a trailing `$`, hence a full match).  Each of them is
"fixed prefix, then one or more digits, then fixed suffix, and nothing
else", captured by `matchPDS`. -/

/-- Strip the exact prefix `pre` from `s`; `none` if `s` does not start
with `pre`. -/
def stripPre : List Char → List Char → Option (List Char)
  | [], s => some s
  | _ :: _, [] => none
  | p :: ps, c :: cs => if c = p then stripPre ps cs else none

/-- `digitsThen suf l` holds iff `l` is one-or-more digits followed by
exactly `suf` (the `\d+SUFFIX$` part of the patterns). -/
def digitsThen (suf : List Char) : List Char → Bool
  | [] => false
  | c :: cs => c.isDigit && (cs == suf || digitsThen suf cs)

/-- Full-string match of `^PRE\d+SUF$`. -/
def matchPDS (pre suf s : List Char) : Bool :=
  match stripPre pre s with
  | some rest => digitsThen suf rest
  | none => false

/-- `^Z_\d+ALBUMS$` — the album-reference column pattern. -/
def albumsPat (s : List Char) : Bool :=
  matchPDS ['Z', '_'] ['A', 'L', 'B', 'U', 'M', 'S'] s

/-- `^Z_\d+ASSETS$` — the strict membership-table pattern, also the
asset-reference column pattern. -/
def assetsPat (s : List Char) : Bool :=
  matchPDS ['Z', '_'] ['A', 'S', 'S', 'E', 'T', 'S'] s

/-- `^Z_FOK_\d+ASSETS$` — the manual-sort-order column pattern. -/
def fokPat (s : List Char) : Bool :=
  matchPDS ['Z', '_', 'F', 'O', 'K', '_'] ['A', 'S', 'S', 'E', 'T', 'S'] s

/-! ## Schema resolver (`get_album_table_columns`)

The SQL `SELECT name FROM sqlite_master WHERE type='table' AND name LIKE
'Z_%ASSETS'` is modelled by filtering the table catalog with `likeZAssets`
(SQLite `LIKE` is ASCII-case-insensitive; `_` matches exactly one
character, `%` any sequence).  The Python loop then takes the FIRST
catalog entry fully matching `^Z_\d+ASSETS$` (it breaks on the first
match), and a single pass over the column names assigns the three roles
with an if/continue chain, the last match per pattern winning. -/

/-- ASCII-case-insensitive character comparison, as used by SQLite `LIKE`. -/
def ciEq (a b : Char) : Bool := a.toLower == b.toLower

/-- `name LIKE 'Z_%ASSETS'`: a `Z`, one arbitrary character, anything,
then `ASSETS`, all compared case-insensitively. -/
def likeZAssets (s : List Char) : Bool :=
  match s with
  | c0 :: _ :: rest =>
    ciEq c0 'Z' && decide (6 ≤ rest.length) &&
      ((rest.reverse.take 6).zip ['S', 'T', 'E', 'S', 'S', 'A']).all fun p => ciEq p.1 p.2
  | _ => false

/-- One step of the column loop; the state is
`(album_column, album_join, sort_column)`. -/
def scanStep (st : Option (List Char) × Option (List Char) × Option (List Char))
    (c : List Char) :
    Option (List Char) × Option (List Char) × Option (List Char) :=
  if albumsPat c then (some c, st.2.1, st.2.2)
  else if assetsPat c then (st.1, some c, st.2.2)
  else if fokPat c then (st.1, st.2.1, some c)
  else st

/-- The single `for col in columns` loop of `get_album_table_columns`. -/
def scanColumns (cols : List (List Char)) :
    Option (List Char) × Option (List Char) × Option (List Char) :=
  cols.foldl scanStep (none, none, none)

/-- The last element of `l` satisfying `p`, if any. -/
def lastMatch (p : List Char → Bool) (l : List (List Char)) : Option (List Char) :=
  l.reverse.find? p

/-- Later matches override earlier ones (and the initial accumulator). -/
def overrideO (new old : Option (List Char)) : Option (List Char) :=
  match new with
  | some v => some v
  | none => old

/-- The two failure modes raised by `get_album_table_columns`. -/
inductive SchemaError where
  | noAssetsTable : SchemaError
  | missingColumns : SchemaError
deriving DecidableEq

/-- `get_album_table_columns`: find the membership table among the catalog
entries matching `LIKE 'Z_%ASSETS'` (first full `^Z_\d+ASSETS$` match
wins, mirroring the `break`), then scan its column names (supplied by
`tableInfo`, modelling `PRAGMA table_info`) for the three roles.  Returns
`(albums_assets_table, album_join, album_column, sort_column)` or a
descriptive error; the matched names are never empty strings, so the
Python truthiness test on them coincides with the `None` test. -/
def get_album_table_columns (catalog : List (List Char))
    (tableInfo : List Char → List (List Char)) :
    Except SchemaError (List Char × List Char × List Char × List Char) :=
  match (catalog.filter likeZAssets).find? assetsPat with
  | none => Except.error SchemaError.noAssetsTable
  | some tbl =>
    match scanColumns (tableInfo tbl) with
    | (some albumColumn, some albumJoin, some sortColumn) =>
      Except.ok (tbl, albumJoin, albumColumn, sortColumn)
    | (none, _, _) => Except.error SchemaError.missingColumns
    | (_, none, _) => Except.error SchemaError.missingColumns
    | (_, _, none) => Except.error SchemaError.missingColumns

/-- Whether any of the three column roles is unresolved after the scan. -/
def rolesMissing (st : Option (List Char) × Option (List Char) × Option (List Char)) :
    Bool :=
  st.1.isNone || st.2.1.isNone || st.2.2.isNone

/-- Whether the call raised. -/
def exceptFails {ε α : Type} : Except ε α → Bool
  | Except.error _ => true
  | Except.ok _ => false

/-! ## Folder hierarchy (`build_folder_hierarchy`)

The recursive CTE `folder_hierarchy` is evaluated level by level: the base
member selects the single top-level library row (`ZKIND = 3999`) with the
empty path string, and each recursive step joins `ZGENERICALBUM` rows of
kind 2 (album) or 4000 (folder) whose `ZPARENTFOLDER` equals a previous
row's `pk`, extending the slash-joined path.  `db.length` levels suffice
for every chain reachable from the root. -/

/-- One row of `ZGENERICALBUM` (the columns any of the queries touch). -/
structure GenericAlbum where
  pk : Int
  zuuid : List Char
  title : Option (List Char)
  parent : Option Int
  kind : Int
  trashedState : Int
  trashedDate : Option Int
  customSortKey : Option Int
  customSortAscending : Option Int
deriving DecidableEq

/-- One row of the CTE `folder_hierarchy(pk, title, parent_pk, level, path)`. -/
structure FHRow where
  pk : Int
  title : Option (List Char)
  parent : Option Int
  level : Nat
  path : Option (List Char)
deriving DecidableEq

/-- `CASE WHEN fh.path = '' THEN ZG.ZTITLE ELSE fh.path || '/' || ZG.ZTITLE END`
with SQL null semantics: a null path or a null title makes the result null
(`NULL = ''` is not true, and `||` propagates null). -/
def childPath (p t : Option (List Char)) : Option (List Char) :=
  match p, t with
  | some [], some tt => some tt
  | some pp, some tt => some (pp ++ '/' :: tt)
  | _, _ => none

/-- The recursive member of the CTE: one expansion step from one row. -/
def childRows (db : List GenericAlbum) (r : FHRow) : List FHRow :=
  (db.filter fun g => (g.kind == 2 || g.kind == 4000) && g.parent == some r.pk).map
    fun g => ⟨g.pk, g.title, g.parent, r.level + 1, childPath r.path g.title⟩

/-- Level-stratified evaluation of the recursive CTE. -/
def cteLevel (db : List GenericAlbum) : Nat → List FHRow
  | 0 =>
    (db.filter fun g => g.kind == 3999).map fun g =>
      ⟨g.pk, g.title, g.parent, 0, some []⟩
  | n + 1 => (cteLevel db n).flatMap (childRows db)

/-- All CTE rows up to depth `db.length`. -/
def cteRows (db : List GenericAlbum) : List FHRow :=
  (List.range (db.length + 1)).flatMap (cteLevel db)

/-- Helper of `splitSlash`: prepend a character to the first fragment. -/
def consHead (c : Char) : List (List Char) → List (List Char)
  | [] => [[c]]
  | p :: ps => (c :: p) :: ps

/-- Python `path.split("/")`: split at every `'/'`, keeping empty
fragments. -/
def splitSlash : List Char → List (List Char)
  | [] => [[]]
  | c :: cs => if c = '/' then [] :: splitSlash cs else consHead c (splitSlash cs)

/-- `build_folder_hierarchy`: run the CTE, keep rows with `level > 0`, and
build the Python dict `pk -> path.split('/') if path else []` as an
association list in insertion order (later entries shadow earlier ones). -/
def build_folder_hierarchy (db : List GenericAlbum) : List (Int × List (List Char)) :=
  ((cteRows db).filter fun r => decide (0 < r.level)).map fun r =>
    (r.pk,
      match r.path with
      | some p => if p = [] then [] else splitSlash p
      | none => [])

/-- Lookup in the dict built by `build_folder_hierarchy` (last write wins). -/
def fpLookup (m : List (Int × List (List Char))) (k : Int) :
    Option (List (List Char)) :=
  (m.reverse.find? fun e => e.1 == k).map fun e => e.2

/-- Python `folder_paths.get(pk, [])`. -/
def fpGetD (m : List (Int × List (List Char))) (k : Int) : List (List Char) :=
  (fpLookup m k).getD []

/-- Path accumulation along one CTE step, on non-null paths and titles. -/
def pathAppend (p t : List Char) : List Char :=
  if p = [] then t else p ++ '/' :: t

/-- `chainB db pk gs`: the rows `gs` form a parent-linked chain of albums
and folders (kinds 2 and 4000) hanging under the container with primary
key `pk`, each row being present in the table. -/
def chainB (db : List GenericAlbum) : Int → List GenericAlbum → Bool
  | _, [] => true
  | pk, g :: rest =>
    decide (g ∈ db) && (g.kind == 2 || g.kind == 4000) && g.parent == some pk &&
      chainB db g.pk rest

/-! ## Album and folder enumeration (`get_albums_info`) -/

/-- One row of the resolved membership table `Z_<n>ASSETS`:
`album` is the `Z_<n>ALBUMS` column, `asset` the `Z_<n>ASSETS` column,
`sortOrder` the `Z_FOK_<n>ASSETS` column. -/
structure MembershipRow where
  album : Option Int
  asset : Option Int
  sortOrder : Option Int
deriving DecidableEq

/-- One row of `ZASSET`. -/
structure AssetRow where
  pk : Int
  zuuid : List Char
  dateCreated : Option Int
  additionalAttributes : Option Int
deriving DecidableEq

/-- One row of `ZADDITIONALASSETATTRIBUTES`. -/
structure AddAttrRow where
  pk : Int
  title : Option (List Char)
deriving DecidableEq

/-- The tables of one Photos database that the queries reach. -/
structure PhotosDB where
  genericAlbums : List GenericAlbum
  membership : List MembershipRow
  assets : List AssetRow
  addAttrs : List AddAttrRow

/-- One result row of the `get_albums_info` query, before the Python
post-processing. -/
structure QRow where
  pk : Int
  zuuid : List Char
  title : Option (List Char)
  parent : Option Int
  kind : Int
  trashedState : Int
  trashedDate : Option Int
  photoCount : Nat
deriving DecidableEq

/-- SQLite ascending comparison on a nullable integer column: nulls sort
first. -/
def optIntLe (a b : Option Int) : Bool :=
  match a, b with
  | none, _ => true
  | some _, none => false
  | some x, some y => decide (x ≤ y)

/-- `ORDER BY ZG.ZTRASHEDDATE` as a relation on result rows. -/
def qrowLe (a b : QRow) : Prop := optIntLe a.trashedDate b.trashedDate = true

instance : DecidableRel qrowLe := fun a b =>
  inferInstanceAs (Decidable (optIntLe a.trashedDate b.trashedDate = true))

instance : IsTotal QRow qrowLe :=
  ⟨by
    intro a b
    unfold qrowLe optIntLe
    rcases a.trashedDate with _ | x <;> rcases b.trashedDate with _ | y <;>
      simp <;> omega⟩

instance : IsTrans QRow qrowLe :=
  ⟨by
    intro a b c
    unfold qrowLe optIntLe
    rcases a.trashedDate with _ | x <;> rcases b.trashedDate with _ | y <;>
      rcases c.trashedDate with _ | z <;> simp <;> omega⟩

/-- The listing query of `get_albums_info`: keep kinds 2 and 4000 with a
non-null parent, compute `COUNT(ZAL.<album_join>)` over the LEFT JOIN
(membership rows for this album whose asset reference is non-null — a
LEFT JOIN without match contributes one all-null row, counted as 0), and
`ORDER BY ZTRASHEDDATE` ascending.  `Z_PK` is the primary key, so the
`GROUP BY Z_PK` keeps one row per table row. -/
def albumsQuery (db : PhotosDB) : List QRow :=
  List.insertionSort qrowLe
    ((db.genericAlbums.filter fun g =>
        (g.kind == 2 || g.kind == 4000) && g.parent.isSome).map fun g =>
      ⟨g.pk, g.zuuid, g.title, g.parent, g.kind, g.trashedState, g.trashedDate,
        (db.membership.filter fun m => m.album == some g.pk && m.asset.isSome).length⟩)

/-- The value landing in `Album.trashed_date` after the Python
post-processing.  `localDT v` stands for `photos_datetime_local v`; the
external conversion is modelled as a tagged value, which keeps it distinct
from the raw database number that Python leaves in place when the
walrus-assignment test is falsy, and from `None`. -/
inductive TrashedDate where
  | null : TrashedDate
  | raw : Int → TrashedDate
  | localDT : Int → TrashedDate
deriving DecidableEq

/-- `if trashed_date := album_data[6]: album_data[6] = photos_datetime_local(...)`:
`None` stays `None`, the falsy `0` stays the raw number, anything else is
converted. -/
def convTrashed : Option Int → TrashedDate
  | none => TrashedDate.null
  | some v => if v = 0 then TrashedDate.raw 0 else TrashedDate.localDT v

/-- The stored timestamp that a `TrashedDate` value corresponds to. -/
def dateOfTD : TrashedDate → Option Int
  | TrashedDate.null => none
  | TrashedDate.raw v => some v
  | TrashedDate.localDT v => some v

/-- The Python `Album` dataclass. -/
structure Album where
  pk : Int
  uuid : List Char
  title : Option (List Char)
  parent : Option Int
  kind : Int
  trashed : Int
  trashed_date : TrashedDate
  photo_count : Nat
  folder_path : List (List Char)
deriving DecidableEq

/-- `get_albums_info`: the query rows in query order, post-processed into
`Album` records annotated with their folder path (`folder_paths.get(pk, [])`). -/
def get_albums_info (db : PhotosDB) : List Album :=
  (albumsQuery db).map fun r =>
    ⟨r.pk, r.zuuid, r.title, r.parent, r.kind, r.trashedState,
      convTrashed r.trashedDate, r.photoCount,
      fpGetD (build_folder_hierarchy db.genericAlbums) r.pk⟩

/-! ## Ordered photo membership (`get_photos_in_album`) -/

/-- One joined row of the `get_photos_in_album` query. -/
structure JRow where
  za : AssetRow
  zal : MembershipRow
  zg : GenericAlbum
  zaa : Option AddAttrRow
deriving DecidableEq

/-- `CASE WHEN ZG.ZCUSTOMSORTKEY = 5 THEN ZAA.ZTITLE END COLLATE NOCASE`;
the ASCII case folding of the NOCASE collation is applied to the key
itself, which induces the same ordering and the same ties. -/
def key1 (r : JRow) : Option (List Char) :=
  if r.zg.customSortKey == some 5 then
    (r.zaa.bind AddAttrRow.title).map (List.map Char.toLower)
  else none

/-- `CASE WHEN ZG.ZCUSTOMSORTKEY = 0 THEN ZAL.<sort_column> END`. -/
def key2 (r : JRow) : Option Int :=
  if r.zg.customSortKey == some 0 then r.zal.sortOrder else none

/-- `CASE WHEN ZG.ZCUSTOMSORTKEY = 1 AND ZG.ZCUSTOMSORTASCENDING = 1 THEN
ZA.ZDATECREATED END` (ascending). -/
def key3 (r : JRow) : Option Int :=
  if r.zg.customSortKey == some 1 && r.zg.customSortAscending == some 1 then
    r.za.dateCreated
  else none

/-- `CASE WHEN ZG.ZCUSTOMSORTKEY = 1 AND ZG.ZCUSTOMSORTASCENDING = 0 THEN
ZA.ZDATECREATED END DESC`. -/
def key4 (r : JRow) : Option Int :=
  if r.zg.customSortKey == some 1 && r.zg.customSortAscending == some 0 then
    r.za.dateCreated
  else none

/-- Byte order on text values (UTF-8 memcmp agrees with codepoint order). -/
def cmpCharList : List Char → List Char → Ordering
  | [], [] => Ordering.eq
  | [], _ :: _ => Ordering.lt
  | _ :: _, [] => Ordering.gt
  | a :: as, b :: bs => (compare a.val.toNat b.val.toNat).then (cmpCharList as bs)

def cmpInt (a b : Int) : Ordering := compare a b

/-- Ascending comparison of a nullable sort key: SQL nulls sort first. -/
def cmpOpt {α : Type} (c : α → α → Ordering) : Option α → Option α → Ordering
  | none, none => Ordering.eq
  | none, some _ => Ordering.lt
  | some _, none => Ordering.gt
  | some a, some b => c a b

/-- The four ORDER BY criteria chained; the fourth is `DESC`, i.e. the
reverse of the ascending comparison (its nulls therefore sort last). -/
def rowCmp (a b : JRow) : Ordering :=
  (cmpOpt cmpCharList (key1 a) (key1 b)).then
    ((cmpOpt cmpInt (key2 a) (key2 b)).then
      ((cmpOpt cmpInt (key3 a) (key3 b)).then
        ((cmpOpt cmpInt (key4 a) (key4 b)).swap)))

def rowLe (a b : JRow) : Prop := rowCmp a b ≠ Ordering.gt

instance : DecidableRel rowLe := fun a b =>
  inferInstanceAs (Decidable (rowCmp a b ≠ Ordering.gt))

/-- The FROM/JOIN/WHERE part of the `get_photos_in_album` query: `ZASSET`
joined to the membership table on the asset-reference column, to
`ZGENERICALBUM` on the album-reference column restricted to the requested
album UUID, and LEFT JOINed to `ZADDITIONALASSETATTRIBUTES` by primary
key (unique, so at most one match). -/
def joinRows (db : PhotosDB) (uuid : List Char) : List JRow :=
  db.assets.flatMap fun za =>
    db.membership.flatMap fun m =>
      if m.asset == some za.pk then
        (db.genericAlbums.filter fun g =>
            m.album == some g.pk && g.zuuid == uuid).map fun g =>
          ⟨za, m, g, db.addAttrs.find? fun aa => za.additionalAttributes == some aa.pk⟩
      else []

/-- `get_photos_in_album`: the joined rows ordered by the chained CASE
criteria, projected to the photo UUIDs. -/
def get_photos_in_album (db : PhotosDB) (uuid : List Char) : List (List Char) :=
  (List.insertionSort rowLe (joinRows db uuid)).map fun r => r.za.zuuid

/-! ## Photo resolution (`uuids_to_photos`) -/

/-- A `photoscript.Photo` handle. -/
structure Photo where
  uuid : List Char
deriving DecidableEq

/-- `uuids_to_photos`: `resolve` models the `photoscript.Photo`
constructor, `none` where the original raises `ValueError` (the asset no
longer exists).  Returns the resolved handles and the skipped-item
notices logged to the console (one per failed identifier, in order); the
function is total, so no per-photo failure aborts the batch. -/
def uuids_to_photos (resolve : List Char → Option Photo) :
    List (List Char) → List Photo × List (List Char)
  | [] => ([], [])
  | u :: rest =>
    match resolve u, uuids_to_photos resolve rest with
    | some p, (ps, ns) => (p :: ps, ns)
    | none, (ps, ns) => (ps, u :: ns)

/-! ## Concrete fixtures used by witnesses and counterexamples -/

def rootEx : GenericAlbum := ⟨0, ['R'], some ['R', 'o', 'o', 't'], none, 3999, 0, none, none, none⟩

def f1Ex : GenericAlbum := ⟨1, ['f', '1'], some ['F', '1'], some 0, 4000, 0, none, none, none⟩

def f2Ex : GenericAlbum := ⟨2, ['f', '2'], some ['F', '2'], some 1, 4000, 0, none, none, none⟩

def aEx : GenericAlbum := ⟨3, ['a'], some ['A'], some 2, 2, 0, none, none, none⟩

/-- Chain root → F1 → F2 → A. -/
def dbChain : List GenericAlbum := [rootEx, f1Ex, f2Ex, aEx]

/-- Root with a single immediate child. -/
def dbRootChild : List GenericAlbum := [rootEx, f1Ex]

/-- An album titled `a/b` directly under the root. -/
def slashEx : GenericAlbum := ⟨1, ['s'], some ['a', '/', 'b'], some 0, 2, 0, none, none, none⟩

def dbSlash : List GenericAlbum := [rootEx, slashEx]

/-- A catalog with TWO tables fully matching `^Z_\d+ASSETS$`. -/
def catEx : List (List Char) :=
  [['Z', '_', '1', 'A', 'S', 'S', 'E', 'T', 'S'],
   ['Z', '_', '2', 'A', 'S', 'S', 'E', 'T', 'S']]

/-- Column metadata resolving all three roles. -/
def tiEx : List Char → List (List Char) := fun _ =>
  [['Z', '_', '1', 'A', 'L', 'B', 'U', 'M', 'S'],
   ['Z', '_', '2', 'A', 'S', 'S', 'E', 'T', 'S'],
   ['Z', '_', 'F', 'O', 'K', '_', '2', 'A', 'S', 'S', 'E', 'T', 'S']]

/-- An album whose stored trashed timestamp is exactly 0. -/
def albumZero : GenericAlbum := ⟨1, ['u'], some ['X'], some 0, 2, 1, some 0, none, none⟩

def dbZero : PhotosDB := ⟨[albumZero], [], [], []⟩

/-- Two albums inserted in the opposite order of their trashed dates. -/
def albumT2 : GenericAlbum := ⟨1, ['u', '1'], some ['B'], some 0, 2, 1, some 2, none, none⟩

def albumT1 : GenericAlbum := ⟨2, ['u', '2'], some ['C'], some 0, 2, 1, some 1, none, none⟩

def dbSort : PhotosDB := ⟨[albumT2, albumT1], [], [], []⟩

/-- Albums fixing each sort discriminator, with joined rows. -/
def gManual : GenericAlbum := ⟨7, ['g'], some ['G'], some 0, 2, 0, none, some 0, none⟩

def gTitle : GenericAlbum := ⟨8, ['h'], some ['H'], some 0, 2, 0, none, some 5, none⟩

def gDateA : GenericAlbum := ⟨9, ['i'], some ['I'], some 0, 2, 0, none, some 1, some 1⟩

def gDateD : GenericAlbum := ⟨9, ['i'], some ['I'], some 0, 2, 0, none, some 1, some 0⟩

def jr1 : JRow := ⟨⟨10, ['p', '1'], some 5, none⟩, ⟨some 7, some 10, some 3⟩, gManual, none⟩

def jr2 : JRow := ⟨⟨11, ['p', '2'], some 4, none⟩, ⟨some 7, some 11, some 5⟩, gManual, none⟩

def jrT1 : JRow :=
  ⟨⟨10, ['p', '1'], some 5, some 1⟩, ⟨some 8, some 10, none⟩, gTitle, some ⟨1, some ['a']⟩⟩

def jrT2 : JRow :=
  ⟨⟨11, ['p', '2'], some 4, some 2⟩, ⟨some 8, some 11, none⟩, gTitle, some ⟨2, some ['B']⟩⟩

def jrD1 : JRow := ⟨⟨10, ['p', '1'], some 5, none⟩, ⟨some 9, some 10, none⟩, gDateA, none⟩

def jrD2 : JRow := ⟨⟨11, ['p', '2'], some 4, none⟩, ⟨some 9, some 11, none⟩, gDateA, none⟩

def jrE1 : JRow := ⟨⟨10, ['p', '1'], some 5, none⟩, ⟨some 9, some 10, none⟩, gDateD, none⟩

def jrE2 : JRow := ⟨⟨11, ['p', '2'], some 4, none⟩, ⟨some 9, some 11, none⟩, gDateD, none⟩

/-! ## Theorems: pattern matching -/

theorem stripPre_eq_some (pre : List Char) :
    ∀ s r : List Char, stripPre pre s = some r ↔ s = pre ++ r := by
  induction pre with
  | nil => intro s r; simp [stripPre]
  | cons p ps ih =>
    intro s r
    cases s with
    | nil => simp [stripPre]
    | cons c cs =>
      by_cases h : c = p
      · subst h
        simp [stripPre, ih]
      · simp [stripPre, h, Ne.symm h]

theorem digitsThen_iff (suf : List Char) :
    ∀ l : List Char, digitsThen suf l = true ↔
      ∃ m : List Char, m ≠ [] ∧ (∀ c ∈ m, c.isDigit = true) ∧ l = m ++ suf := by
  intro l
  induction l with
  | nil =>
    simp only [digitsThen, Bool.false_eq_true, false_iff]
    rintro ⟨m, hm, _, hl⟩
    exact hm (List.append_eq_nil.mp hl.symm).1
  | cons c cs ih =>
    simp only [digitsThen, Bool.and_eq_true, Bool.or_eq_true, beq_iff_eq]
    constructor
    · rintro ⟨hd, hcs | hrec⟩
      · exact ⟨[c], by simp, by simp [hd], by simp [hcs]⟩
      · obtain ⟨m, hm, hdig, hl⟩ := ih.mp hrec
        exact ⟨c :: m, by simp, by simpa [hd] using hdig, by simp [hl]⟩
    · rintro ⟨m, hm, hdig, hl⟩
      cases m with
      | nil => exact absurd rfl hm
      | cons d ds =>
        simp only [List.cons_append, List.cons.injEq] at hl
        obtain ⟨rfl, hl⟩ := hl
        refine ⟨hdig _ (by simp), ?_⟩
        cases ds with
        | nil => left; simpa using hl
        | cons e es =>
          right
          exact ih.mpr ⟨e :: es, by simp, fun x hx => hdig x (by simp [hx]), hl⟩

theorem matchPDS_iff (pre suf s : List Char) :
    matchPDS pre suf s = true ↔
      ∃ m : List Char, m ≠ [] ∧ (∀ c ∈ m, c.isDigit = true) ∧ s = pre ++ m ++ suf := by
  unfold matchPDS
  cases h : stripPre pre s with
  | none =>
    simp only [Bool.false_eq_true, false_iff]
    rintro ⟨m, _, _, rfl⟩
    rw [List.append_assoc] at h
    have := (stripPre_eq_some pre _ (m ++ suf)).mpr rfl
    simp [this] at h
  | some rest =>
    rw [digitsThen_iff]
    have hs := (stripPre_eq_some pre s rest).mp h
    subst hs
    constructor
    · rintro ⟨m, hm, hdig, hrest⟩
      exact ⟨m, hm, hdig, by simp [hrest, List.append_assoc]⟩
    · rintro ⟨m, hm, hdig, heq⟩
      rw [List.append_assoc] at heq
      exact ⟨m, hm, hdig, List.append_cancel_left heq⟩

theorem albumsPat_assetsPat_excl (s : List Char) :
    (albumsPat s && assetsPat s) = false := by
  cases h1 : albumsPat s
  · simp
  cases h2 : assetsPat s
  · simp
  exfalso
  obtain ⟨m1, _, _, he1⟩ := (matchPDS_iff _ _ s).mp h1
  obtain ⟨m2, _, _, he2⟩ := (matchPDS_iff _ _ s).mp h2
  rw [he1] at he2
  have hlen : m1.length = m2.length := by
    have := congrArg List.length he2
    simp [List.length_append] at this
    omega
  have := List.append_inj he2 (by simp [hlen])
  simp at this

theorem albumsPat_fokPat_excl (s : List Char) :
    (albumsPat s && fokPat s) = false := by
  cases h1 : albumsPat s
  · simp
  cases h2 : fokPat s
  · simp
  exfalso
  obtain ⟨m1, hm1, hd1, he1⟩ := (matchPDS_iff _ _ s).mp h1
  obtain ⟨m2, _, _, he2⟩ := (matchPDS_iff _ _ s).mp h2
  rw [he1] at he2
  cases m1 with
  | nil => exact hm1 rfl
  | cons c cs =>
    simp only [List.append_assoc, List.cons_append, List.nil_append] at he2
    simp only [List.cons.injEq] at he2
    have hc : c = 'F' := he2.2.2.1
    have := hd1 c (by simp)
    rw [hc] at this
    simp [Char.isDigit] at this

theorem assetsPat_fokPat_excl (s : List Char) :
    (assetsPat s && fokPat s) = false := by
  cases h1 : assetsPat s
  · simp
  cases h2 : fokPat s
  · simp
  exfalso
  obtain ⟨m1, hm1, hd1, he1⟩ := (matchPDS_iff _ _ s).mp h1
  obtain ⟨m2, _, _, he2⟩ := (matchPDS_iff _ _ s).mp h2
  rw [he1] at he2
  cases m1 with
  | nil => exact hm1 rfl
  | cons c cs =>
    simp only [List.append_assoc, List.cons_append, List.nil_append] at he2
    simp only [List.cons.injEq] at he2
    have hc : c = 'F' := he2.2.2.1
    have := hd1 c (by simp)
    rw [hc] at this
    simp [Char.isDigit] at this

/-! ## Theorems: schema resolution -/

theorem assetsPat_imp_like {s : List Char} (h : assetsPat s = true) :
    likeZAssets s = true := by
  obtain ⟨m, _, _, he⟩ := (matchPDS_iff _ _ s).mp h
  subst he
  show likeZAssets ('Z' :: '_' :: (m ++ ['A', 'S', 'S', 'E', 'T', 'S'])) = true
  have h2 : decide (6 ≤ (m ++ ['A', 'S', 'S', 'E', 'T', 'S']).length) = true := by
    rw [decide_eq_true_eq, List.length_append]
    simp
  have h3 : (((m ++ ['A', 'S', 'S', 'E', 'T', 'S']).reverse.take 6).zip
      ['S', 'T', 'E', 'S', 'S', 'A']).all (fun p => ciEq p.1 p.2) = true := by
    have hrev : (m ++ ['A', 'S', 'S', 'E', 'T', 'S']).reverse =
        ['S', 'T', 'E', 'S', 'S', 'A'] ++ m.reverse := by simp
    rw [hrev, show (6 : Nat) = (['S', 'T', 'E', 'S', 'S', 'A'] : List Char).length from rfl,
      List.take_left]
    decide
  simp only [likeZAssets, h2, h3, Bool.and_true, Bool.true_and]
  decide

theorem find?_filter_of_imp {α : Type} (p q : α → Bool)
    (himp : ∀ x, p x = true → q x = true) :
    ∀ l : List α, (l.filter q).find? p = l.find? p := by
  intro l
  induction l with
  | nil => rfl
  | cons x xs ih =>
    cases hpx : p x with
    | true =>
      have hqx := himp x hpx
      rw [List.filter_cons_of_pos hqx, List.find?_cons_of_pos _ hpx,
        List.find?_cons_of_pos _ hpx]
    | false =>
      by_cases hqx : q x = true
      · rw [List.filter_cons_of_pos hqx, List.find?_cons_of_neg _ (by simp [hpx]),
          List.find?_cons_of_neg _ (by simp [hpx]), ih]
      · rw [List.filter_cons_of_neg (by simpa using hqx),
          List.find?_cons_of_neg _ (by simp [hpx]), ih]

theorem find?_append_singleton {α : Type} (p : α → Bool) (c : α) :
    ∀ l : List α, (l ++ [c]).find? p =
      match l.find? p with
      | some v => some v
      | none => if p c then some c else none := by
  intro l
  induction l with
  | nil =>
    simp only [List.nil_append]
    cases hp : p c
    · simp [List.find?, hp]
    · simp [List.find?, hp]
  | cons x xs ih =>
    cases hx : p x
    · rw [List.cons_append, List.find?_cons_of_neg _ (by simp [hx]),
        List.find?_cons_of_neg _ (by simp [hx]), ih]
    · rw [List.cons_append, List.find?_cons_of_pos _ hx, List.find?_cons_of_pos _ hx]

theorem lastMatch_cons (p : List Char → Bool) (c : List Char) (cs : List (List Char)) :
    lastMatch p (c :: cs) =
      match lastMatch p cs with
      | some v => some v
      | none => if p c then some c else none := by
  unfold lastMatch
  rw [List.reverse_cons, find?_append_singleton]
  rcases List.find? p cs.reverse with _ | v <;> rfl

theorem scan_foldl :
    ∀ (cols : List (List Char)) (a j s : Option (List Char)),
      cols.foldl scanStep (a, j, s) =
        (overrideO (lastMatch albumsPat cols) a,
         overrideO (lastMatch assetsPat cols) j,
         overrideO (lastMatch fokPat cols) s) := by
  intro cols
  induction cols with
  | nil => intro a j s; simp [lastMatch, overrideO, List.find?]
  | cons c cs ih =>
    intro a j s
    rw [List.foldl_cons, lastMatch_cons, lastMatch_cons, lastMatch_cons]
    by_cases h1 : albumsPat c = true
    · have h2 : assetsPat c = false := by
        have := albumsPat_assetsPat_excl c
        rw [h1] at this; simpa using this
      have h3 : fokPat c = false := by
        have := albumsPat_fokPat_excl c
        rw [h1] at this; simpa using this
      simp only [scanStep, h1, h2, h3, if_true, ih]
      rcases hA : lastMatch albumsPat cs with _ | vA <;>
        rcases hB : lastMatch assetsPat cs with _ | vB <;>
          rcases hC : lastMatch fokPat cs with _ | vC <;>
            simp [overrideO, h1, h2, h3]
    · have h1f : albumsPat c = false := by simpa using h1
      by_cases h2 : assetsPat c = true
      · have h3 : fokPat c = false := by
          have := assetsPat_fokPat_excl c
          rw [h2] at this; simpa using this
        simp only [scanStep, h1f, h2, h3, if_true, Bool.false_eq_true, if_false, ih]
        rcases hA : lastMatch albumsPat cs with _ | vA <;>
          rcases hB : lastMatch assetsPat cs with _ | vB <;>
            rcases hC : lastMatch fokPat cs with _ | vC <;>
              simp [overrideO, h1f, h2, h3]
      · have h2f : assetsPat c = false := by simpa using h2
        by_cases h3 : fokPat c = true
        · simp only [scanStep, h1f, h2f, h3, if_true, Bool.false_eq_true, if_false, ih]
          rcases hA : lastMatch albumsPat cs with _ | vA <;>
            rcases hB : lastMatch assetsPat cs with _ | vB <;>
              rcases hC : lastMatch fokPat cs with _ | vC <;>
                simp [overrideO, h1f, h2f, h3]
        · have h3f : fokPat c = false := by simpa using h3
          simp only [scanStep, h1f, h2f, h3f, Bool.false_eq_true, if_false, ih]
          rcases hA : lastMatch albumsPat cs with _ | vA <;>
            rcases hB : lastMatch assetsPat cs with _ | vB <;>
              rcases hC : lastMatch fokPat cs with _ | vC <;>
                simp [overrideO, h1f, h2f, h3f]

theorem scanColumns_eq_lastMatch (cols : List (List Char)) :
    scanColumns cols =
      (lastMatch albumsPat cols, lastMatch assetsPat cols, lastMatch fokPat cols) := by
  unfold scanColumns
  rw [scan_foldl]
  rcases lastMatch albumsPat cols with _ | vA <;>
    rcases lastMatch assetsPat cols with _ | vB <;>
      rcases lastMatch fokPat cols with _ | vC <;>
        simp [overrideO]

/-! ## Theorems: folder hierarchy -/

theorem consHead_ne_nil (c : Char) (l : List (List Char)) : consHead c l ≠ [] := by
  cases l <;> simp [consHead]

theorem splitSlash_ne_nil (l : List Char) : splitSlash l ≠ [] := by
  cases l with
  | nil => simp [splitSlash]
  | cons c cs =>
    unfold splitSlash
    by_cases h : c = '/' <;> simp [h, consHead_ne_nil]

theorem consHead_append (c : Char) (xs ys : List (List Char)) (h : xs ≠ []) :
    consHead c (xs ++ ys) = consHead c xs ++ ys := by
  cases xs with
  | nil => exact absurd rfl h
  | cons p ps => simp [consHead]

theorem splitSlash_cons_slash (l : List Char) :
    splitSlash ('/' :: l) = [] :: splitSlash l := by
  simp [splitSlash]

theorem splitSlash_cons_other (c : Char) (l : List Char) (h : ¬c = '/') :
    splitSlash (c :: l) = consHead c (splitSlash l) := by
  simp [splitSlash, h]

theorem splitSlash_append (a b : List Char) :
    splitSlash (a ++ '/' :: b) = splitSlash a ++ splitSlash b := by
  induction a with
  | nil => simp [splitSlash]
  | cons c cs ih =>
    by_cases h : c = '/'
    · subst h
      rw [List.cons_append, splitSlash_cons_slash, splitSlash_cons_slash, ih]
      rfl
    · rw [List.cons_append, splitSlash_cons_other c _ h, splitSlash_cons_other c _ h,
        ih, consHead_append c _ _ (splitSlash_ne_nil cs)]

theorem splitSlash_no_slash (t : List Char) (h : '/' ∉ t) : splitSlash t = [t] := by
  induction t with
  | nil => rfl
  | cons c cs ih =>
    have hc : ¬c = '/' := by
      intro hx
      exact h (by simp [hx])
    have hcs : '/' ∉ cs := fun hm => h (by simp [hm])
    simp [splitSlash, hc, ih hcs, consHead]

theorem splitSlash_length (t : List Char) :
    (splitSlash t).length = t.count '/' + 1 := by
  induction t with
  | nil => simp [splitSlash]
  | cons c cs ih =>
    by_cases h : c = '/'
    · subst h
      simp [splitSlash, ih, List.count_cons]
    · rcases hs : splitSlash cs with _ | ⟨p, ps⟩
      · exact absurd hs (splitSlash_ne_nil cs)
      · have ih2 := ih
        rw [hs] at ih2
        simp only [List.length_cons] at ih2
        simp [splitSlash, h, consHead, hs, List.count_cons, Ne.symm h, ih2]

theorem foldl_pathAppend :
    ∀ (ts : List (List Char)) (p : List Char), p ≠ [] →
      List.foldl pathAppend p ts = p ++ ts.flatMap fun t => '/' :: t := by
  intro ts
  induction ts with
  | nil => intro p _; simp
  | cons t ts ih =>
    intro p hp
    have hpa : pathAppend p t = p ++ '/' :: t := if_neg hp
    have hne : pathAppend p t ≠ [] := by
      rw [hpa]
      simp
    rw [List.foldl_cons, ih _ hne, hpa, List.flatMap_cons]
    simp

theorem splitSlash_joined :
    ∀ (ts : List (List Char)) (t : List Char),
      splitSlash (t ++ ts.flatMap fun x => '/' :: x) =
        splitSlash t ++ ts.flatMap splitSlash := by
  intro ts
  induction ts with
  | nil => intro t; simp
  | cons x xs ih =>
    intro t
    rw [List.flatMap_cons]
    have hsh : t ++ ('/' :: x ++ xs.flatMap fun y => '/' :: y) =
        t ++ '/' :: (x ++ xs.flatMap fun y => '/' :: y) := by simp
    rw [hsh, splitSlash_append, ih, List.flatMap_cons]

theorem flatMap_splitSlash_eq (ts : List (List Char)) (h : ∀ t ∈ ts, '/' ∉ t) :
    ts.flatMap splitSlash = ts := by
  induction ts with
  | nil => rfl
  | cons t ts ih =>
    rw [List.flatMap_cons, splitSlash_no_slash t (h t (by simp)),
      ih (fun x hx => h x (by simp [hx]))]
    rfl

theorem length_le_flatMap_splitSlash (ts : List (List Char)) :
    ts.length ≤ (ts.flatMap splitSlash).length := by
  induction ts with
  | nil => simp
  | cons t ts ih =>
    rw [List.flatMap_cons, List.length_append, List.length_cons, splitSlash_length]
    omega

theorem flatMap_splitSlash_length (ts : List (List Char)) (t : List Char)
    (ht : t ∈ ts) (hs : '/' ∈ t) :
    ts.length < (ts.flatMap splitSlash).length := by
  induction ts with
  | nil => cases ht
  | cons x xs ih =>
    rw [List.flatMap_cons, List.length_append, List.length_cons, splitSlash_length]
    rcases List.mem_cons.mp ht with heq | hmem
    · have h1 : 1 ≤ List.count '/' x := by
        have := List.count_pos_iff.mpr (heq ▸ hs)
        omega
      have h2 := length_le_flatMap_splitSlash xs
      omega
    · have := ih hmem
      omega

theorem cteLevel_level (db : List GenericAlbum) :
    ∀ (n : Nat) (r : FHRow), r ∈ cteLevel db n → r.level = n := by
  intro n
  induction n with
  | zero =>
    intro r hr
    unfold cteLevel at hr
    obtain ⟨g, _, rfl⟩ := List.mem_map.mp hr
    rfl
  | succ n ih =>
    intro r hr
    obtain ⟨r0, hr0, hchild⟩ := List.mem_flatMap.mp hr
    unfold childRows at hchild
    obtain ⟨g, _, rfl⟩ := List.mem_map.mp hchild
    simp [ih r0 hr0]

theorem cte_chain (db : List GenericAlbum) :
    ∀ (gs : List GenericAlbum) (ts : List (List Char)) (n : Nat) (r : FHRow),
      r ∈ cteLevel db n → chainB db r.pk gs = true →
      gs.map GenericAlbum.title = ts.map some → gs ≠ [] →
      ∀ p : List Char, r.path = some p →
      ∃ g, gs.getLast? = some g ∧
        (⟨g.pk, g.title, g.parent, n + gs.length,
          some (List.foldl pathAppend p ts)⟩ : FHRow) ∈ cteLevel db (n + gs.length) := by
  intro gs
  induction gs with
  | nil =>
    intro ts n r _ _ _ hne p _
    exact absurd rfl hne
  | cons g rest ih =>
    intro ts n r hr hc hts _ p hp
    simp only [chainB, Bool.and_eq_true, decide_eq_true_eq, beq_iff_eq,
      Bool.or_eq_true] at hc
    obtain ⟨⟨⟨hgdb, hkind⟩, hparent⟩, hrest⟩ := hc
    cases ts with
    | nil => simp at hts
    | cons t ts2 =>
      simp only [List.map_cons, List.cons.injEq] at hts
      obtain ⟨hgt, hts2⟩ := hts
      have hrl : r.level = n := cteLevel_level db n r hr
      have hgrow : (⟨g.pk, g.title, g.parent, n + 1,
          childPath r.path g.title⟩ : FHRow) ∈ cteLevel db (n + 1) := by
        show _ ∈ (cteLevel db n).flatMap (childRows db)
        refine List.mem_flatMap.mpr ⟨r, hr, ?_⟩
        unfold childRows
        refine List.mem_map.mpr ⟨g, ?_, by rw [hrl]⟩
        refine List.mem_filter.mpr ⟨hgdb, ?_⟩
        simp only [Bool.and_eq_true, Bool.or_eq_true, beq_iff_eq]
        exact ⟨by rcases hkind with h | h <;> simp [h], hparent⟩
      have hpath : childPath r.path g.title = some (pathAppend p t) := by
        rw [hp, hgt]
        rcases p with _ | ⟨q, qs⟩
        · simp [childPath, pathAppend]
        · simp [childPath, pathAppend]
      rw [hpath] at hgrow
      cases rest with
      | nil =>
        cases ts2 with
        | nil =>
          refine ⟨g, rfl, ?_⟩
          simpa using hgrow
        | cons _ _ => simp at hts2
      | cons g2 rest2 =>
        obtain ⟨glast, hlast, hmem⟩ :=
          ih ts2 (n + 1) _ hgrow hrest hts2 (by simp) (pathAppend p t) rfl
        refine ⟨glast, ?_, ?_⟩
        · rw [List.getLast?_cons_cons]
          exact hlast
        · have harith : n + (g :: g2 :: rest2).length = (n + 1) + (g2 :: rest2).length := by
            simp only [List.length_cons]
            omega
          rw [harith]
          exact hmem

theorem build_folder_hierarchy_chain (db : List GenericAlbum) (root : GenericAlbum)
    (gs : List GenericAlbum) (t1 : List Char) (ts : List (List Char))
    (hroot : root ∈ db) (hkind : root.kind = 3999)
    (hchain : chainB db root.pk gs = true)
    (hts : gs.map GenericAlbum.title = (t1 :: ts).map some)
    (ht1 : t1 ≠ [])
    (hlen : gs.length ≤ db.length) :
    ∃ g, gs.getLast? = some g ∧
      (g.pk, (t1 :: ts).flatMap splitSlash) ∈ build_folder_hierarchy db := by
  have hr0 : (⟨root.pk, root.title, root.parent, 0, some []⟩ : FHRow) ∈ cteLevel db 0 := by
    unfold cteLevel
    exact List.mem_map.mpr ⟨root, List.mem_filter.mpr ⟨hroot, by simp [hkind]⟩, rfl⟩
  have hne : gs ≠ [] := by
    intro h
    rw [h] at hts
    simp at hts
  obtain ⟨g, hlast, hmem⟩ := cte_chain db gs (t1 :: ts) 0 _ hr0 hchain hts hne [] rfl
  refine ⟨g, hlast, ?_⟩
  have hglen : 0 < gs.length := List.length_pos.mpr hne
  rw [Nat.zero_add] at hmem
  have hpath : List.foldl pathAppend [] (t1 :: ts) =
      t1 ++ ts.flatMap fun t => '/' :: t := by
    rw [List.foldl_cons, show pathAppend [] t1 = t1 from if_pos rfl]
    exact foldl_pathAppend ts t1 ht1
  have hnn : t1 ++ (ts.flatMap fun t => '/' :: t) ≠ [] := by
    intro h
    exact ht1 (List.append_eq_nil.mp h).1
  unfold build_folder_hierarchy
  refine List.mem_map.mpr
    ⟨⟨g.pk, g.title, g.parent, gs.length, some (List.foldl pathAppend [] (t1 :: ts))⟩,
      List.mem_filter.mpr ⟨?_, by simpa using hglen⟩, ?_⟩
  · unfold cteRows
    exact List.mem_flatMap.mpr
      ⟨gs.length, List.mem_range.mpr (by omega), hmem⟩
  · show (g.pk,
        match some (List.foldl pathAppend [] (t1 :: ts)) with
        | some p => if p = [] then [] else splitSlash p
        | none => []) = (g.pk, (t1 :: ts).flatMap splitSlash)
    rw [hpath]
    simp only [if_neg hnn]
    rw [splitSlash_joined ts t1, List.flatMap_cons]

/-! ## Theorems: album enumeration -/

theorem dateOfTD_conv (d : Option Int) : dateOfTD (convTrashed d) = d := by
  rcases d with _ | v
  · rfl
  · by_cases h : v = 0 <;> simp [convTrashed, dateOfTD, h]

theorem get_albums_info_pairwise (db : PhotosDB) :
    (get_albums_info db).Pairwise fun a b =>
      optIntLe (dateOfTD a.trashed_date) (dateOfTD b.trashed_date) = true := by
  unfold get_albums_info
  have hs : (albumsQuery db).Pairwise qrowLe := by
    unfold albumsQuery
    exact List.sorted_insertionSort qrowLe _
  refine List.Pairwise.map _ ?_ hs
  intro a b hab
  show optIntLe (dateOfTD (convTrashed a.trashedDate))
      (dateOfTD (convTrashed b.trashedDate)) = true
  rw [dateOfTD_conv, dateOfTD_conv]
  exact hab

theorem mem_get_albums_info (db : PhotosDB) (g : GenericAlbum)
    (hg : g ∈ db.genericAlbums) (hk : g.kind = 2 ∨ g.kind = 4000)
    (hp : g.parent.isSome = true) :
    ∃ a ∈ get_albums_info db, a.pk = g.pk ∧
      a.trashed_date = convTrashed g.trashedDate := by
  unfold get_albums_info
  refine ⟨_, List.mem_map.mpr
    ⟨⟨g.pk, g.zuuid, g.title, g.parent, g.kind, g.trashedState, g.trashedDate,
      (db.membership.filter fun m => m.album == some g.pk && m.asset.isSome).length⟩,
      ?_, rfl⟩, rfl, rfl⟩
  unfold albumsQuery
  refine ((List.perm_insertionSort qrowLe _).mem_iff).mpr ?_
  refine List.mem_map.mpr ⟨g, List.mem_filter.mpr ⟨hg, ?_⟩, rfl⟩
  simp only [Bool.and_eq_true, Bool.or_eq_true, beq_iff_eq]
  exact ⟨by rcases hk with h | h <;> simp [h], hp⟩

/-! ## Theorems: photo ordering keys -/

theorem key1_eq {r : JRow} (h : r.zg.customSortKey = some 5) :
    key1 r = (r.zaa.bind AddAttrRow.title).map (List.map Char.toLower) := by
  unfold key1
  rw [if_pos (by simp [h])]

theorem key1_eq_none {r : JRow} (h : r.zg.customSortKey ≠ some 5) :
    key1 r = none := by
  unfold key1
  rw [if_neg (by simp [h])]

theorem key2_eq {r : JRow} (h : r.zg.customSortKey = some 0) :
    key2 r = r.zal.sortOrder := by
  unfold key2
  rw [if_pos (by simp [h])]

theorem key2_eq_none {r : JRow} (h : r.zg.customSortKey ≠ some 0) :
    key2 r = none := by
  unfold key2
  rw [if_neg (by simp [h])]

theorem key3_eq {r : JRow} (hk : r.zg.customSortKey = some 1)
    (ha : r.zg.customSortAscending = some 1) : key3 r = r.za.dateCreated := by
  unfold key3
  rw [if_pos (by simp [hk, ha])]

theorem key3_eq_none_key {r : JRow} (h : r.zg.customSortKey ≠ some 1) :
    key3 r = none := by
  unfold key3
  rw [if_neg (by simp [h])]

theorem key3_eq_none_asc {r : JRow} (h : r.zg.customSortAscending ≠ some 1) :
    key3 r = none := by
  unfold key3
  rw [if_neg (by simp [h])]

theorem key4_eq {r : JRow} (hk : r.zg.customSortKey = some 1)
    (ha : r.zg.customSortAscending = some 0) : key4 r = r.za.dateCreated := by
  unfold key4
  rw [if_pos (by simp [hk, ha])]

theorem key4_eq_none_key {r : JRow} (h : r.zg.customSortKey ≠ some 1) :
    key4 r = none := by
  unfold key4
  rw [if_neg (by simp [h])]

theorem key4_eq_none_asc {r : JRow} (h : r.zg.customSortAscending ≠ some 0) :
    key4 r = none := by
  unfold key4
  rw [if_neg (by simp [h])]

theorem cmpOpt_none_none {α : Type} (c : α → α → Ordering) :
    cmpOpt c none none = Ordering.eq := rfl

theorem eq_then (x : Ordering) : Ordering.eq.then x = x := rfl

theorem then_eq (x : Ordering) : x.then Ordering.eq = x := by
  cases x <;> rfl

theorem swap_eq : Ordering.eq.swap = Ordering.eq := rfl

/-! ## Claim theorems -/

/-- Claim C1 (corrected): for every parent-linked chain of folders/albums
(kinds 2 and 4000) hanging off the top-level root (kind 3999) whose
titles are nonempty and slash-free, `build_folder_hierarchy` contains an
entry mapping the last item's primary key to the ordered titles along the
chain, root-first, INCLUDING the item's own title as the final element
(the callers compensate by dropping the last element). -/
theorem build_folder_hierarchy_chain_titles (db : List GenericAlbum)
    (root g : GenericAlbum) (gs : List GenericAlbum)
    (t1 : List Char) (ts : List (List Char))
    (hroot : root ∈ db) (hkind : root.kind = 3999)
    (hchain : chainB db root.pk gs = true)
    (hts : gs.map GenericAlbum.title = (t1 :: ts).map some)
    (hns : ∀ t ∈ t1 :: ts, '/' ∉ t) (ht1 : t1 ≠ [])
    (hlen : gs.length ≤ db.length) (hlast : gs.getLast? = some g) :
    (g.pk, t1 :: ts) ∈ build_folder_hierarchy db := by
  obtain ⟨g2, hl2, hmem⟩ :=
    build_folder_hierarchy_chain db root gs t1 ts hroot hkind hchain hts ht1 hlen
  have hg : g2 = g := by
    rw [hlast] at hl2
    exact (Option.some_inj.mp hl2).symm
  subst hg
  rwa [flatMap_splitSlash_eq _ hns] at hmem

/-- Witness for C1's theorem on the concrete chain root → F1 → F2 → A. -/
theorem build_folder_hierarchy_chain_titles_witness :
    ((3 : Int), [['F', '1'], ['F', '2'], ['A']]) ∈ build_folder_hierarchy dbChain :=
  build_folder_hierarchy_chain_titles dbChain rootEx aEx [f1Ex, f2Ex, aEx]
    ['F', '1'] [['F', '2'], ['A']] (by decide) rfl (by decide) rfl (by decide)
    (by decide) (by decide) rfl

/-- Claim C1 as stated fails: for the chain root → F1 → F2 → A, the
mapping for A's key is `["F1", "F2", "A"]`, not `["F1", "F2"]` — the
item's own title is NOT excluded. -/
theorem build_folder_hierarchy_own_title_cex :
    fpLookup (build_folder_hierarchy dbChain) 3 =
        some [['F', '1'], ['F', '2'], ['A']] ∧
      fpLookup (build_folder_hierarchy dbChain) 3 ≠ some [['F', '1'], ['F', '2']] :=
  ⟨by decide, by decide⟩

/-- Claim C3 (corrected): an immediate child of the root with a nonempty
slash-free title `t` is mapped to the singleton `[t]` — its own title —
not to the empty sequence. -/
theorem build_folder_hierarchy_root_child (db : List GenericAlbum)
    (root g : GenericAlbum) (t : List Char)
    (hroot : root ∈ db) (hkind : root.kind = 3999)
    (hg : g ∈ db) (hgk : g.kind = 2 ∨ g.kind = 4000)
    (hgp : g.parent = some root.pk) (hgt : g.title = some t)
    (ht : t ≠ []) (hns : '/' ∉ t) :
    (g.pk, [t]) ∈ build_folder_hierarchy db := by
  have hchain : chainB db root.pk [g] = true := by
    simp only [chainB, Bool.and_eq_true, decide_eq_true_eq, beq_iff_eq, Bool.or_eq_true,
      Bool.and_true]
    exact ⟨⟨hg, by rcases hgk with h | h <;> simp [h]⟩, hgp⟩
  have hdb1 : (1 : Nat) ≤ db.length := by
    have : db ≠ [] := by
      rintro rfl
      simp at hroot
    have := List.length_pos.mpr this
    omega
  obtain ⟨g2, hl2, hmem⟩ :=
    build_folder_hierarchy_chain db root [g] t [] hroot hkind hchain
      (by simp [hgt]) ht (by simpa using hdb1)
  have hg2 : g2 = g := by
    simp only [List.getLast?_singleton, Option.some_inj] at hl2
    exact hl2.symm
  subst hg2
  rwa [flatMap_splitSlash_eq [t] (by simpa using hns)] at hmem

/-- Witness for C3's theorem: F1 directly under the root maps to
`[["F1"]]`. -/
theorem build_folder_hierarchy_root_child_witness :
    ((1 : Int), [['F', '1']]) ∈ build_folder_hierarchy dbRootChild :=
  build_folder_hierarchy_root_child dbRootChild rootEx f1Ex ['F', '1']
    (by decide) rfl (by decide) (by decide) rfl rfl (by decide) (by decide)

/-- Claim C3 as stated fails: the immediate child F1 of the root maps to
`["F1"]`, not to the empty sequence. -/
theorem build_folder_hierarchy_root_child_cex :
    fpLookup (build_folder_hierarchy dbRootChild) 1 = some [['F', '1']] ∧
      fpLookup (build_folder_hierarchy dbRootChild) 1 ≠ some [] :=
  ⟨by decide, by decide⟩

/-- Claim C10: along a root-reachable chain, the slash-joined path is
split back at EVERY `'/'`, so the entry equals the concatenation of the
per-title splits, and when some title on the chain contains `'/'` the
entry has strictly more elements than the item's depth; the mapping is
faithful only for slash-free titles. -/
theorem build_folder_hierarchy_slash_split (db : List GenericAlbum)
    (root g : GenericAlbum) (gs : List GenericAlbum)
    (t1 : List Char) (ts : List (List Char))
    (hroot : root ∈ db) (hkind : root.kind = 3999)
    (hchain : chainB db root.pk gs = true)
    (hts : gs.map GenericAlbum.title = (t1 :: ts).map some)
    (ht1 : t1 ≠ []) (hlen : gs.length ≤ db.length) (hlast : gs.getLast? = some g)
    (t : List Char) (htm : t ∈ t1 :: ts) (hsl : '/' ∈ t) :
    (g.pk, (t1 :: ts).flatMap splitSlash) ∈ build_folder_hierarchy db ∧
      (t1 :: ts).length < ((t1 :: ts).flatMap splitSlash).length := by
  obtain ⟨g2, hl2, hmem⟩ :=
    build_folder_hierarchy_chain db root gs t1 ts hroot hkind hchain hts ht1 hlen
  have hg : g2 = g := by
    rw [hlast] at hl2
    exact (Option.some_inj.mp hl2).symm
  subst hg
  exact ⟨hmem, flatMap_splitSlash_length _ t htm hsl⟩

/-- Witness for C10's theorem: the title `a/b` directly under the root is
split into two elements, exceeding depth 1. -/
theorem build_folder_hierarchy_slash_split_witness :
    ((1 : Int), ([['a', '/', 'b']] : List (List Char)).flatMap splitSlash) ∈
        build_folder_hierarchy dbSlash ∧
      ([['a', '/', 'b']] : List (List Char)).length <
        (([['a', '/', 'b']] : List (List Char)).flatMap splitSlash).length :=
  build_folder_hierarchy_slash_split dbSlash rootEx slashEx [slashEx]
    ['a', '/', 'b'] [] (by decide) rfl (by decide) rfl (by decide) (by decide) rfl
    ['a', '/', 'b'] (by decide) (by decide)

/-- Claim C2 (corrected): `get_album_table_columns` fails (with a
descriptive error and no partial result, by the `Except` type) exactly
when NO catalog table fully matches `^Z_\d+ASSETS$`, or when the FIRST
fully-matching table leaves one of the three column roles unresolved.
With more than one fully-matching table the first one is silently used —
multiplicity does not cause a failure (see the counterexample). -/
theorem get_album_table_columns_fails_iff (catalog : List (List Char))
    (tableInfo : List Char → List (List Char)) :
    exceptFails (get_album_table_columns catalog tableInfo) = true ↔
      (catalog.find? assetsPat = none ∨
        ∃ tbl, catalog.find? assetsPat = some tbl ∧
          rolesMissing (scanColumns (tableInfo tbl)) = true) := by
  unfold get_album_table_columns
  rw [find?_filter_of_imp assetsPat likeZAssets (fun x hx => assetsPat_imp_like hx)]
  cases hf : catalog.find? assetsPat with
  | none => simp [exceptFails]
  | some tbl =>
    rcases hsc : scanColumns (tableInfo tbl) with ⟨a, j, s⟩
    rcases a with _ | va <;> rcases j with _ | vj <;> rcases s with _ | vs <;>
      simp [exceptFails, rolesMissing, hsc]

/-- Witness for C2's theorem at a concrete catalog. -/
theorem get_album_table_columns_fails_iff_witness :
    exceptFails (get_album_table_columns catEx tiEx) = true ↔
      (catEx.find? assetsPat = none ∨
        ∃ tbl, catEx.find? assetsPat = some tbl ∧
          rolesMissing (scanColumns (tiEx tbl)) = true) :=
  get_album_table_columns_fails_iff catEx tiEx

/-- Claim C2 as stated fails: with TWO tables fully matching the strict
pattern, resolution does not fail — it silently uses the first match. -/
theorem get_album_table_columns_multi_match_cex :
    (catEx.filter assetsPat).length = 2 ∧
      exceptFails (get_album_table_columns catEx tiEx) = false :=
  ⟨by decide, by decide⟩

/-- Claim C7: the three column-name patterns are pairwise mutually
exclusive, so each column is assigned to at most one role, and the single
scan assigns to each role the LAST column matching its pattern. -/
theorem scan_roles_exclusive_last_wins :
    (∀ s, (albumsPat s && assetsPat s) = false) ∧
    (∀ s, (albumsPat s && fokPat s) = false) ∧
    (∀ s, (assetsPat s && fokPat s) = false) ∧
    (∀ cols, scanColumns cols =
      (lastMatch albumsPat cols, lastMatch assetsPat cols, lastMatch fokPat cols)) :=
  ⟨albumsPat_assetsPat_excl, albumsPat_fokPat_excl, assetsPat_fokPat_excl,
    scanColumns_eq_lastMatch⟩

/-- Claim C5: `get_albums_info` returns records ordered by trashed
timestamp ascending (nulls first, per SQLite): whenever position `i`
precedes position `j`, the stored date at `i` is less than or equal to
the one at `j`, for every store content — hence albums trashed at
t1 < t2 < t3 appear in that relative order regardless of insertion
order. -/
theorem get_albums_info_sorted (db : PhotosDB) (i j : Nat)
    (hi : i < (get_albums_info db).length) (hj : j < (get_albums_info db).length)
    (hij : i < j) :
    optIntLe (dateOfTD (((get_albums_info db).get ⟨i, hi⟩).trashed_date))
      (dateOfTD (((get_albums_info db).get ⟨j, hj⟩).trashed_date)) = true :=
  List.pairwise_iff_get.mp (get_albums_info_pairwise db) ⟨i, hi⟩ ⟨j, hj⟩
    (Fin.mk_lt_mk.mpr hij)

/-- Witness for C5's theorem: two albums inserted in reverse date order
come out date-sorted. -/
theorem get_albums_info_sorted_witness :
    optIntLe (dateOfTD (((get_albums_info dbSort).get ⟨0, by decide⟩).trashed_date))
      (dateOfTD (((get_albums_info dbSort).get ⟨1, by decide⟩).trashed_date)) = true :=
  get_albums_info_sorted dbSort 0 1 (by decide) (by decide) (by decide)

/-- Claim C6 (corrected): for every enumerated album, a null stored
trashed timestamp yields a null `trashed_date` (never coerced), and a
non-null, NONZERO timestamp yields the local-time conversion — but a
stored timestamp of exactly 0 is left as the raw number, unconverted
(see the counterexample). -/
theorem get_albums_info_trashed_date (db : PhotosDB) (g : GenericAlbum)
    (hg : g ∈ db.genericAlbums) (hk : g.kind = 2 ∨ g.kind = 4000)
    (hp : g.parent.isSome = true) :
    ∃ a ∈ get_albums_info db, a.pk = g.pk ∧
      (g.trashedDate = none → a.trashed_date = TrashedDate.null) ∧
      (∀ v : Int, g.trashedDate = some v → v ≠ 0 →
        a.trashed_date = TrashedDate.localDT v) ∧
      (g.trashedDate = some 0 → a.trashed_date = TrashedDate.raw 0) := by
  obtain ⟨a, ha, hpk, hconv⟩ := mem_get_albums_info db g hg hk hp
  refine ⟨a, ha, hpk, ?_, ?_, ?_⟩
  · intro h
    rw [hconv, h]
    rfl
  · intro v hv hnz
    rw [hconv, hv]
    simp [convTrashed, hnz]
  · intro h
    rw [hconv, h]
    rfl

/-- Witness for C6's theorem at the zero-timestamp album. -/
theorem get_albums_info_trashed_date_witness :
    ∃ a ∈ get_albums_info dbZero, a.pk = albumZero.pk ∧
      (albumZero.trashedDate = none → a.trashed_date = TrashedDate.null) ∧
      (∀ v : Int, albumZero.trashedDate = some v → v ≠ 0 →
        a.trashed_date = TrashedDate.localDT v) ∧
      (albumZero.trashedDate = some 0 → a.trashed_date = TrashedDate.raw 0) :=
  get_albums_info_trashed_date dbZero albumZero (by decide) (by decide) (by decide)

/-- Claim C6 as stated fails on a stored timestamp of exactly 0: the
returned record keeps the raw 0 instead of its local-time conversion. -/
theorem get_albums_info_zero_cex :
    (get_albums_info dbZero).map (fun a => a.trashed_date) = [TrashedDate.raw 0] ∧
      TrashedDate.raw 0 ≠ TrashedDate.localDT 0 :=
  ⟨by decide, by decide⟩

/-- Claim C9: a stored trashed timestamp of exactly 0 is returned raw and
unconverted (the conversion is guarded by Python truthiness, and 0 is
falsy); every other non-null timestamp is converted. -/
theorem get_albums_info_zero_raw (db : PhotosDB) (g : GenericAlbum)
    (hg : g ∈ db.genericAlbums) (hk : g.kind = 2 ∨ g.kind = 4000)
    (hp : g.parent.isSome = true) (v : Int) (hv : g.trashedDate = some v) :
    ∃ a ∈ get_albums_info db, a.pk = g.pk ∧
      a.trashed_date =
        (if v = 0 then TrashedDate.raw 0 else TrashedDate.localDT v) := by
  obtain ⟨a, ha, hpk, hconv⟩ := mem_get_albums_info db g hg hk hp
  refine ⟨a, ha, hpk, ?_⟩
  rw [hconv, hv]
  rfl

/-- Witness for C9's theorem at the zero-timestamp album. -/
theorem get_albums_info_zero_raw_witness :
    ∃ a ∈ get_albums_info dbZero, a.pk = albumZero.pk ∧
      a.trashed_date =
        (if (0 : Int) = 0 then TrashedDate.raw 0 else TrashedDate.localDT 0) :=
  get_albums_info_zero_raw dbZero albumZero (by decide) (by decide) (by decide) 0 rfl

/-- Claim C4: the four ORDER BY CASE keys of `get_photos_in_album` are
mutually exclusive per row — at most one is non-null, so chaining them is
safe — and the album's stored discriminator selects exactly one ordering:
the chained comparison collapses to the case-folded title comparison for
key 5, to the raw manual sort-order comparison (ascending) for key 0, and
to the creation-date comparison, ascending or descending per the stored
direction flag, for key 1. -/
theorem get_photos_in_album_sort_modes :
    (∀ r : JRow, (key1 r).isSome.toNat + (key2 r).isSome.toNat +
        (key3 r).isSome.toNat + (key4 r).isSome.toNat ≤ 1) ∧
    (∀ a b : JRow, a.zg.customSortKey = some 5 → b.zg.customSortKey = some 5 →
      rowCmp a b = cmpOpt cmpCharList
        ((a.zaa.bind AddAttrRow.title).map (List.map Char.toLower))
        ((b.zaa.bind AddAttrRow.title).map (List.map Char.toLower))) ∧
    (∀ a b : JRow, a.zg.customSortKey = some 0 → b.zg.customSortKey = some 0 →
      rowCmp a b = cmpOpt cmpInt a.zal.sortOrder b.zal.sortOrder) ∧
    (∀ a b : JRow, a.zg.customSortKey = some 1 → b.zg.customSortKey = some 1 →
      a.zg.customSortAscending = some 1 → b.zg.customSortAscending = some 1 →
      rowCmp a b = cmpOpt cmpInt a.za.dateCreated b.za.dateCreated) ∧
    (∀ a b : JRow, a.zg.customSortKey = some 1 → b.zg.customSortKey = some 1 →
      a.zg.customSortAscending = some 0 → b.zg.customSortAscending = some 0 →
      rowCmp a b = (cmpOpt cmpInt a.za.dateCreated b.za.dateCreated).swap) := by
  refine ⟨?_, ?_, ?_, ?_, ?_⟩
  · intro r
    rcases hk : r.zg.customSortKey with _ | k
    · rw [key1_eq_none (by simp [hk]), key2_eq_none (by simp [hk]),
        key3_eq_none_key (by simp [hk]), key4_eq_none_key (by simp [hk])]
      simp
    · by_cases h5 : k = 5
      · subst h5
        rw [key1_eq hk, key2_eq_none (by simp [hk]),
          key3_eq_none_key (by simp [hk]), key4_eq_none_key (by simp [hk])]
        cases hx : ((r.zaa.bind AddAttrRow.title).map (List.map Char.toLower)).isSome <;>
          simp [hx]
      · by_cases h0 : k = 0
        · subst h0
          rw [key1_eq_none (by simp [hk]), key2_eq hk,
            key3_eq_none_key (by simp [hk]), key4_eq_none_key (by simp [hk])]
          cases hx : r.zal.sortOrder.isSome <;> simp [hx]
        · by_cases h1 : k = 1
          · subst h1
            rw [key1_eq_none (by simp [hk]), key2_eq_none (by simp [hk])]
            rcases ha : r.zg.customSortAscending with _ | a1
            · rw [key3_eq_none_asc (by simp [ha]), key4_eq_none_asc (by simp [ha])]
              simp
            · by_cases ha1 : a1 = 1
              · subst ha1
                rw [key3_eq hk ha, key4_eq_none_asc (by simp [ha])]
                cases hx : r.za.dateCreated.isSome <;> simp [hx]
              · by_cases ha0 : a1 = 0
                · subst ha0
                  rw [key3_eq_none_asc (by simp [ha]), key4_eq hk ha]
                  cases hx : r.za.dateCreated.isSome <;> simp [hx]
                · rw [key3_eq_none_asc (by simp [ha, ha1]),
                    key4_eq_none_asc (by simp [ha, ha0])]
                  simp
          · rw [key1_eq_none (by simp [hk, h5]), key2_eq_none (by simp [hk, h0]),
              key3_eq_none_key (by simp [hk, h1]), key4_eq_none_key (by simp [hk, h1])]
            simp
  · intro a b ha hb
    unfold rowCmp
    rw [key1_eq ha, key1_eq hb, key2_eq_none (by simp [ha]), key2_eq_none (by simp [hb]),
      key3_eq_none_key (by simp [ha]), key3_eq_none_key (by simp [hb]),
      key4_eq_none_key (by simp [ha]), key4_eq_none_key (by simp [hb])]
    simp [cmpOpt_none_none, eq_then, then_eq, swap_eq]
  · intro a b ha hb
    unfold rowCmp
    rw [key1_eq_none (by simp [ha]), key1_eq_none (by simp [hb]),
      key2_eq ha, key2_eq hb,
      key3_eq_none_key (by simp [ha]), key3_eq_none_key (by simp [hb]),
      key4_eq_none_key (by simp [ha]), key4_eq_none_key (by simp [hb])]
    simp [cmpOpt_none_none, eq_then, then_eq, swap_eq]
  · intro a b ha hb haa hba
    unfold rowCmp
    rw [key1_eq_none (by simp [ha]), key1_eq_none (by simp [hb]),
      key2_eq_none (by simp [ha]), key2_eq_none (by simp [hb]),
      key3_eq ha haa, key3_eq hb hba,
      key4_eq_none_asc (by simp [haa]), key4_eq_none_asc (by simp [hba])]
    simp [cmpOpt_none_none, eq_then, then_eq, swap_eq]
  · intro a b ha hb haa hba
    unfold rowCmp
    rw [key1_eq_none (by simp [ha]), key1_eq_none (by simp [hb]),
      key2_eq_none (by simp [ha]), key2_eq_none (by simp [hb]),
      key3_eq_none_asc (by simp [haa]), key3_eq_none_asc (by simp [hba]),
      key4_eq ha haa, key4_eq hb hba]
    simp [cmpOpt_none_none, eq_then, then_eq, swap_eq]

/-- Witness for C4's theorem: each sort mode instantiated on concrete
joined rows. -/
theorem get_photos_in_album_sort_modes_witness :
    (key1 jr1).isSome.toNat + (key2 jr1).isSome.toNat +
        (key3 jr1).isSome.toNat + (key4 jr1).isSome.toNat ≤ 1 ∧
    rowCmp jrT1 jrT2 = cmpOpt cmpCharList
      ((jrT1.zaa.bind AddAttrRow.title).map (List.map Char.toLower))
      ((jrT2.zaa.bind AddAttrRow.title).map (List.map Char.toLower)) ∧
    rowCmp jr1 jr2 = cmpOpt cmpInt jr1.zal.sortOrder jr2.zal.sortOrder ∧
    rowCmp jrD1 jrD2 = cmpOpt cmpInt jrD1.za.dateCreated jrD2.za.dateCreated ∧
    rowCmp jrE1 jrE2 = (cmpOpt cmpInt jrE1.za.dateCreated jrE2.za.dateCreated).swap :=
  ⟨get_photos_in_album_sort_modes.1 jr1,
   get_photos_in_album_sort_modes.2.1 jrT1 jrT2 rfl rfl,
   get_photos_in_album_sort_modes.2.2.1 jr1 jr2 rfl rfl,
   get_photos_in_album_sort_modes.2.2.2.1 jrD1 jrD2 rfl rfl rfl rfl,
   get_photos_in_album_sort_modes.2.2.2.2 jrE1 jrE2 rfl rfl rfl rfl⟩

/-- Claim C8: `uuids_to_photos` returns the handles of exactly the
identifiers that resolve, in order, and records one skipped-item notice
per identifier that does not; being a total function of the resolution
outcomes, a per-photo failure never aborts the batch. -/
theorem uuids_to_photos_skips_invalid (resolve : List Char → Option Photo)
    (uuids : List (List Char)) :
    (uuids_to_photos resolve uuids).1 = uuids.filterMap resolve ∧
      (uuids_to_photos resolve uuids).2 =
        uuids.filter fun u => (resolve u).isNone := by
  induction uuids with
  | nil => exact ⟨rfl, rfl⟩
  | cons u rest ih =>
    obtain ⟨h1, h2⟩ := ih
    rcases hr : resolve u with _ | p <;>
      simp [uuids_to_photos, hr, h1, h2, List.filterMap_cons, List.filter_cons]

end RecoverAlbums
